import Mathlib

/-!
# Verification of the GARGANTUA black-hole visualization (src/main.cpp)

Shallow embedding of the procedural scene model of `main.cpp`:

* The color model `GetDiskColor` and the orbital-camera update use only
  rational constants and arithmetic, so they are embedded over `ℚ`
  (IEEE float operations are modeled as exact arithmetic).
* Particle creation and the Doppler computations use `sqrtf` and `cosf`,
  so they are embedded over `ℝ` with `Real.sqrt` and `Real.cos`.
* `PI` is the raylib macro constant, taken at the value of its source
  literal; `GetRandomValue(lo, hi)` results are modeled as integer
  parameters constrained to `[lo, hi]`.
-/

set_option autoImplicit false

namespace Gargantua

/-! ### ColorModel (`GetDiskColor`, main.cpp lines 50 to 91) -/

/-- Working color value during shading: one rational per channel
(the float variables `r`, `g`, `b` in `GetDiskColor`). -/
structure ColorF where
  r : ℚ
  g : ℚ
  b : ℚ
  deriving Repr, DecidableEq

/-- Final color: channels after the cast to `unsigned char`. -/
structure ColorRGB where
  r : ℕ
  g : ℕ
  b : ℕ
  a : ℕ
  deriving Repr, DecidableEq

def DISK_HOT : ColorF := ⟨255, 255, 240⟩

def DISK_MID : ColorF := ⟨255, 200, 100⟩

def DISK_COLD : ColorF := ⟨200, 80, 30⟩

/-- Piecewise-linear blackbody interpolation (lines 55 to 65); `f` is
inlined. -/
def baseColor (t : ℚ) : ColorF :=
  if t < 0.3 then
    ⟨DISK_HOT.r + (DISK_MID.r - DISK_HOT.r) * (t / 0.3),
     DISK_HOT.g + (DISK_MID.g - DISK_HOT.g) * (t / 0.3),
     DISK_HOT.b + (DISK_MID.b - DISK_HOT.b) * (t / 0.3)⟩
  else
    ⟨DISK_MID.r + (DISK_COLD.r - DISK_MID.r) * ((t - 0.3) / 0.7),
     DISK_MID.g + (DISK_COLD.g - DISK_MID.g) * ((t - 0.3) / 0.7),
     DISK_MID.b + (DISK_COLD.b - DISK_MID.b) * ((t - 0.3) / 0.7)⟩

/-- Relativistic beaming factor, clamped (lines 69 to 70). -/
def intensity (d : ℚ) : ℚ := max 0.3 (min 2.5 (d * d * d))

/-- Doppler color shift applied to the base color (lines 74 to 84);
`shift` is inlined. -/
def shiftedColor (t d : ℚ) : ColorF :=
  let c := baseColor t
  if 1 < d then
    ⟨max 0 (c.r - 20 * ((d - 1) * 0.8)), min 255 (c.g + 30 * ((d - 1) * 0.8)),
     min 255 (c.b + 60 * ((d - 1) * 0.8))⟩
  else
    ⟨min 255 (c.r + 40 * ((1 - d) * 1.2)), max 0 (c.g - 30 * ((1 - d) * 1.2)),
     max 0 (c.b - 60 * ((1 - d) * 1.2))⟩

/-- Final float value of the red channel (line 86). -/
def finalR (t d : ℚ) : ℚ := min 255 ((shiftedColor t d).r * intensity d)

/-- Final float value of the green channel (line 87). -/
def finalG (t d : ℚ) : ℚ := min 255 ((shiftedColor t d).g * intensity d)

/-- Final float value of the blue channel (line 88). -/
def finalB (t d : ℚ) : ℚ := min 255 ((shiftedColor t d).b * intensity d)

/-- The cast `(unsigned char)x` for `x` in `[0, 255]`: truncation toward
zero, i.e. the floor for nonnegative values. -/
def toByte (x : ℚ) : ℕ := (⌊x⌋).toNat

/-- `GetDiskColor` (lines 50 to 91): blackbody interpolation, Doppler
shift, beaming, clamp to `[0, 255]`, cast to bytes, alpha `255`. -/
def GetDiskColor (t d : ℚ) : ColorRGB :=
  ⟨toByte (finalR t d), toByte (finalG t d), toByte (finalB t d), 255⟩

/-- C1: `GetDiskColor(0.0, 1.0)` returns exactly the hot reference color
`(255, 255, 240)`: at `d = 1` the beaming intensity is `1` and the shift
branch taken is the redshift one with shift magnitude `0`, so the result
is the unshifted base color at `t = 0`. -/
theorem getDiskColor_hot_boundary :
    GetDiskColor 0 1 = ⟨255, 255, 240, 255⟩ ∧
    shiftedColor 0 1 = baseColor 0 ∧ intensity 1 = 1 ∧ ¬ (1 : ℚ) < 1 := by
  refine ⟨?_, ?_, ?_, by norm_num⟩
  · show ColorRGB.mk (toByte (finalR 0 1)) (toByte (finalG 0 1))
      (toByte (finalB 0 1)) 255 = ⟨255, 255, 240, 255⟩
    norm_num [finalR, finalG, finalB, shiftedColor, baseColor, intensity,
      DISK_HOT, DISK_MID, DISK_COLD, toByte]
    decide
  · norm_num [shiftedColor, baseColor, intensity, DISK_HOT, DISK_MID,
      DISK_COLD]
  · norm_num [intensity]

/-! ### OrbitCamera (main.cpp lines 126 to 142) -/

/-- Camera state: the mutable variables `camAngle`, `camElev`, `camDist`,
`autoRot` of `main` (lines 126 to 127). -/
structure CamState where
  angle : ℚ
  elev : ℚ
  dist : ℚ
  auto : Bool
  deriving Repr, DecidableEq

/-- Keys sampled each frame (lines 135 to 141): held A, D, W, S, Q, E and
the SPACE toggle press. -/
structure CamInput where
  keyA : Bool
  keyD : Bool
  keyW : Bool
  keyS : Bool
  keyQ : Bool
  keyE : Bool
  space : Bool
  deriving Repr, DecidableEq

/-- Elevation update: line 137 (W, clamped above) then line 138
(S, clamped below). -/
def stepElev (e : ℚ) (w s : Bool) (dt : ℚ) : ℚ :=
  let e1 := if w then min (e + dt * 0.5) 1.2 else e
  if s then max (e1 - dt * 0.5) (-0.3) else e1

/-- Distance update: line 139 (Q, clamped below) then line 140
(E, clamped above). -/
def stepDist (x : ℚ) (q e : Bool) (dt : ℚ) : ℚ :=
  let x1 := if q then max (x - dt * 4) 6 else x
  if e then min (x1 + dt * 4) 30 else x1

/-- One frame of camera input handling (lines 135 to 142): A/D move the
angle, W/S the elevation, Q/E the distance, SPACE toggles `autoRot`, and
afterwards auto-rotation adds `0.12 * dt` to the angle. -/
def camStep (st : CamState) (inp : CamInput) (dt : ℚ) : CamState :=
  let a1 := if inp.keyA then st.angle - dt else st.angle
  let a2 := if inp.keyD then a1 + dt else a1
  let auto := if inp.space then !st.auto else st.auto
  let a3 := if auto then a2 + dt * 0.12 else a2
  { angle := a3, elev := stepElev st.elev inp.keyW inp.keyS dt,
    dist := stepDist st.dist inp.keyQ inp.keyE dt, auto := auto }

/-- Initial camera state (lines 126 to 127). -/
def camInit : CamState := ⟨0, 0.2, 16, true⟩

/-- Run the camera over a sequence of frames, each a pair of sampled
input and frame time. -/
def camRun (st : CamState) (frames : List (CamInput × ℚ)) : CamState :=
  frames.foldl (fun s f => camStep s f.1 f.2) st

/-- The clamp invariant of the camera state. -/
def camOK (st : CamState) : Prop :=
  -0.3 ≤ st.elev ∧ st.elev ≤ 1.2 ∧ 6 ≤ st.dist ∧ st.dist ≤ 30

/-- No key held or pressed. -/
def noKeys : CamInput := ⟨false, false, false, false, false, false, false⟩

lemma stepElev_mem {e : ℚ} (w s : Bool) {dt : ℚ}
    (h1 : -0.3 ≤ e) (h2 : e ≤ 1.2) (hdt : 0 ≤ dt) :
    -0.3 ≤ stepElev e w s dt ∧ stepElev e w s dt ≤ 1.2 := by
  unfold stepElev
  split_ifs
  · refine ⟨le_max_right _ _, max_le ?_ (by norm_num)⟩
    have := min_le_right (e + dt * 0.5) (1.2 : ℚ)
    linarith
  · exact ⟨le_min (by linarith) (by norm_num), min_le_right _ _⟩
  · exact ⟨le_max_right _ _, max_le (by linarith) (by norm_num)⟩
  · exact ⟨h1, h2⟩

lemma stepDist_mem {x : ℚ} (q e : Bool) {dt : ℚ}
    (h1 : 6 ≤ x) (h2 : x ≤ 30) (hdt : 0 ≤ dt) :
    6 ≤ stepDist x q e dt ∧ stepDist x q e dt ≤ 30 := by
  unfold stepDist
  split_ifs
  · refine ⟨le_min ?_ (by norm_num), min_le_right _ _⟩
    have := le_max_right (x - dt * 4) (6 : ℚ)
    linarith
  · exact ⟨le_max_right _ _, max_le (by linarith) (by norm_num)⟩
  · exact ⟨le_min (by linarith) (by norm_num), min_le_right _ _⟩
  · exact ⟨h1, h2⟩

lemma camStep_ok {st : CamState} (inp : CamInput) {dt : ℚ}
    (h : camOK st) (hdt : 0 ≤ dt) : camOK (camStep st inp dt) := by
  obtain ⟨h1, h2, h3, h4⟩ := h
  obtain ⟨he1, he2⟩ := stepElev_mem inp.keyW inp.keyS h1 h2 hdt
  obtain ⟨hd1, hd2⟩ := stepDist_mem inp.keyQ inp.keyE h3 h4 hdt
  exact ⟨he1, he2, hd1, hd2⟩

lemma camRun_ok {st : CamState} {frames : List (CamInput × ℚ)}
    (h : camOK st) (hf : ∀ f ∈ frames, 0 ≤ f.2) : camOK (camRun st frames) := by
  induction frames generalizing st with
  | nil => exact h
  | cons f fs ih =>
      exact ih (camStep_ok f.1 h (hf f (List.mem_cons_self f fs)))
        (fun g hg => hf g (List.mem_cons_of_mem f hg))

/-- C6: starting from the initial camera state (elevation `0.2`,
distance `16`), any sequence of frames with any held inputs and
nonnegative frame times keeps elevation in `[-0.3, 1.2]` and distance in
`[6, 30]`; and a delta that would exceed a bound leaves the value exactly
at that bound. -/
theorem camera_clamp_invariant :
    (∀ frames : List (CamInput × ℚ), (∀ f ∈ frames, 0 ≤ f.2) →
       camOK (camRun camInit frames)) ∧
    (∀ (st : CamState) (inp : CamInput) (dt : ℚ),
       (inp.keyW = true → inp.keyS = false → 1.2 ≤ st.elev + dt * 0.5 →
         (camStep st inp dt).elev = 1.2) ∧
       (inp.keyS = true → inp.keyW = false → st.elev - dt * 0.5 ≤ -0.3 →
         (camStep st inp dt).elev = -0.3) ∧
       (inp.keyQ = true → inp.keyE = false → st.dist - dt * 4 ≤ 6 →
         (camStep st inp dt).dist = 6) ∧
       (inp.keyE = true → inp.keyQ = false → 30 ≤ st.dist + dt * 4 →
         (camStep st inp dt).dist = 30)) := by
  constructor
  · exact fun frames hf => camRun_ok (by norm_num [camOK, camInit]) hf
  · intro st inp dt
    refine ⟨fun hw hs h => ?_, fun hs hw h => ?_, fun hq he h => ?_,
      fun he hq h => ?_⟩
    · simp only [camStep, stepElev, hw, hs, if_true, if_false]
      exact min_eq_right h
    · simp only [camStep, stepElev, hw, hs, if_true, if_false]
      exact max_eq_right h
    · simp only [camStep, stepDist, hq, he, if_true, if_false]
      exact max_eq_right h
    · simp only [camStep, stepDist, hq, he, if_true, if_false]
      exact min_eq_right h

/-- Witness for C6: a frame sequence with every key held and large frame
times stays within the clamps. -/
theorem camera_clamp_invariant_witness :
    (∀ f ∈ [((⟨true, true, true, true, true, true, true⟩ : CamInput),
        (100 : ℚ)), (⟨false, false, true, false, true, false, false⟩, 2)],
      0 ≤ f.2) ∧
    camOK (camRun camInit [((⟨true, true, true, true, true, true, true⟩ :
        CamInput), (100 : ℚ)),
      (⟨false, false, true, false, true, false, false⟩, 2)]) := by
  have h : ∀ f ∈ [((⟨true, true, true, true, true, true, true⟩ : CamInput),
      (100 : ℚ)), (⟨false, false, true, false, true, false, false⟩, 2)],
      0 ≤ f.2 := by decide
  exact ⟨h, camera_clamp_invariant.1 _ h⟩

/-- Counterexample to C7: in auto-rotate mode with the D key held, the
orbit angle advances by `1.12` over a one-second frame, not by the fixed
auto-rotate rate `0.12`: directional input is not exclusive to manual
mode. -/
theorem camera_modes_cex :
    camInit.auto = true ∧
    (camStep camInit ⟨false, true, false, false, false, false, false⟩
      1).angle = camInit.angle + 1.12 ∧
    camInit.angle + (1.12 : ℚ) ≠ camInit.angle + 0.12 * 1 := by
  refine ⟨rfl, ?_, by norm_num [camInit]⟩
  norm_num [camStep, camInit]

/-- C7 amended: directional inputs drive angle, elevation and distance in
both modes at rates `±1` rad/s, `±0.5` rad/s (clamped) and `±4` units/s
(clamped); auto-rotate mode additionally adds `0.12` rad/s to the angle
on top of any input; with no input held, auto-rotate advances the angle
at exactly `0.12` rad/s; toggling flips only the mode flag, so a toggled
step behaves exactly like an untoggled step from the flipped mode and
resets none of angle, elevation, distance. -/
theorem camera_modes_amended :
    (∀ (st : CamState) (dt : ℚ), st.auto = true →
       camStep st noKeys dt = { st with angle := st.angle + dt * 0.12 }) ∧
    (∀ (st : CamState) (dt : ℚ), st.auto = false →
       (camStep st { noKeys with keyD := true } dt).angle = st.angle + dt ∧
       (camStep st { noKeys with keyA := true } dt).angle = st.angle - dt ∧
       camStep st noKeys dt = st) ∧
    (∀ (st : CamState) (dt : ℚ),
       (st.elev + dt * 0.5 ≤ 1.2 →
         (camStep st { noKeys with keyW := true } dt).elev =
           st.elev + dt * 0.5) ∧
       (-0.3 ≤ st.elev - dt * 0.5 →
         (camStep st { noKeys with keyS := true } dt).elev =
           st.elev - dt * 0.5) ∧
       (6 ≤ st.dist - dt * 4 →
         (camStep st { noKeys with keyQ := true } dt).dist =
           st.dist - dt * 4) ∧
       (st.dist + dt * 4 ≤ 30 →
         (camStep st { noKeys with keyE := true } dt).dist =
           st.dist + dt * 4)) ∧
    (∀ (st : CamState) (inp : CamInput) (dt : ℚ),
       camStep st { inp with space := true } dt =
         camStep { st with auto := !st.auto } { inp with space := false } dt) ∧
    (∀ (st : CamState) (dt : ℚ), st.auto = true →
       (camStep st { noKeys with keyD := true } dt).angle =
         st.angle + dt + dt * 0.12) := by
  refine ⟨?_, ?_, ?_, ?_, ?_⟩
  · intro st dt h
    cases st
    simp only [camStep, stepElev, stepDist, noKeys] at *
    simp [h]
  · intro st dt h
    cases st
    simp only [camStep, stepElev, stepDist, noKeys] at *
    simp [h]
  · intro st dt
    refine ⟨fun h => ?_, fun h => ?_, fun h => ?_, fun h => ?_⟩
    · simp only [camStep, stepElev, noKeys, if_true, if_false]
      exact min_eq_left h
    · simp only [camStep, stepElev, noKeys, if_true, if_false]
      exact max_eq_left h
    · simp only [camStep, stepDist, noKeys, if_true, if_false]
      exact max_eq_left h
    · simp only [camStep, stepDist, noKeys, if_true, if_false]
      exact min_eq_left h
  · intro st inp dt
    cases st
    cases inp
    simp [camStep]
  · intro st dt h
    cases st
    simp only [camStep, stepElev, stepDist, noKeys] at *
    simp [h]

/-- Witness for C7 amended: concrete manual-mode and auto-mode steps. -/
theorem camera_modes_amended_witness :
    ((⟨0, 0.2, 16, false⟩ : CamState).auto = false ∧
      (camStep ⟨0, 0.2, 16, false⟩ { noKeys with keyD := true } 1).angle =
        0 + 1) ∧
    ((0 : ℚ) + 1 * 0.5 ≤ 1.2 ∧
      (camStep ⟨0, 0, 16, true⟩ { noKeys with keyW := true } 1).elev =
        0 + 1 * 0.5) := by
  constructor
  · exact ⟨rfl, (camera_modes_amended.2.1 ⟨0, 0.2, 16, false⟩ 1 rfl).1⟩
  · exact ⟨by norm_num,
      (camera_modes_amended.2.2.1 ⟨0, 0, 16, true⟩ 1).1 (by norm_num)⟩

/-! ### ColorModel bounds and monotonicity (claims C3, C4) -/

lemma baseColor_bounds {t : ℚ} (h0 : 0 ≤ t) (h1 : t ≤ 1) :
    200 ≤ (baseColor t).r ∧ (baseColor t).r ≤ 255 ∧
    80 ≤ (baseColor t).g ∧ (baseColor t).g ≤ 255 ∧
    30 ≤ (baseColor t).b ∧ (baseColor t).b ≤ 240 := by
  unfold baseColor DISK_HOT DISK_MID DISK_COLD
  split_ifs with h
  · refine ⟨by norm_num, by norm_num, ?_, ?_, ?_, ?_⟩ <;> norm_num <;>
      linarith
  · push_neg at h
    refine ⟨?_, ?_, ?_, ?_, ?_, ?_⟩ <;> norm_num <;> linarith

lemma intensity_bounds (d : ℚ) : 0.3 ≤ intensity d ∧ intensity d ≤ 2.5 :=
  ⟨le_max_left _ _, max_le (by norm_num) (min_le_left _ _)⟩

lemma intensity_mono {d1 d2 : ℚ} (h0 : 0 ≤ d1) (h : d1 ≤ d2) :
    intensity d1 ≤ intensity d2 := by
  have h02 : 0 ≤ d2 := h0.trans h
  have hsq : d1 * d1 ≤ d2 * d2 := mul_le_mul h h h0 h02
  have hcube : d1 * d1 * d1 ≤ d2 * d2 * d2 :=
    mul_le_mul hsq h h0 (mul_nonneg h02 h02)
  exact max_le_max le_rfl (min_le_min le_rfl hcube)

lemma shiftedColor_nonneg {t : ℚ} (d : ℚ) (h0 : 0 ≤ t) (h1 : t ≤ 1) :
    0 ≤ (shiftedColor t d).r ∧ 0 ≤ (shiftedColor t d).g ∧
    0 ≤ (shiftedColor t d).b := by
  obtain ⟨br1, br2, bg1, bg2, bb1, bb2⟩ := baseColor_bounds h0 h1
  unfold shiftedColor
  split_ifs with hd
  · exact ⟨le_max_left _ _, le_min (by norm_num) (by nlinarith),
      le_min (by norm_num) (by nlinarith)⟩
  · push_neg at hd
    exact ⟨le_min (by norm_num) (by nlinarith), le_max_left _ _,
      le_max_left _ _⟩

lemma toByte_le {x : ℚ} (h : x ≤ 255) : toByte x ≤ 255 := by
  have hf : ⌊x⌋ ≤ 255 := by
    have := Int.floor_le_floor (α := ℚ) h
    simpa using this
  exact Int.toNat_le.mpr hf

lemma toByte_mono {x y : ℚ} (h : x ≤ y) : toByte x ≤ toByte y :=
  Int.toNat_le_toNat (Int.floor_le_floor h)

/-- C4: for `t` in `[0, 1]` and `d` in `[0.3, 2.5]`, every channel value
of `GetDiskColor` saturates: each final float value lies in `[0, 255]`
and equals `clamp(shiftedChannel * intensity, 0, 255)` even though the
code applies only the upper bound in its last step, and each returned
byte is at most `255`. -/
theorem color_channels_clamped (t d : ℚ) (ht0 : 0 ≤ t) (ht1 : t ≤ 1)
    (hd0 : 0.3 ≤ d) (hd1 : d ≤ 2.5) :
    (0 ≤ finalR t d ∧ finalR t d ≤ 255 ∧
      finalR t d = max 0 (min 255 ((shiftedColor t d).r * intensity d)) ∧
      (GetDiskColor t d).r ≤ 255) ∧
    (0 ≤ finalG t d ∧ finalG t d ≤ 255 ∧
      finalG t d = max 0 (min 255 ((shiftedColor t d).g * intensity d)) ∧
      (GetDiskColor t d).g ≤ 255) ∧
    (0 ≤ finalB t d ∧ finalB t d ≤ 255 ∧
      finalB t d = max 0 (min 255 ((shiftedColor t d).b * intensity d)) ∧
      (GetDiskColor t d).b ≤ 255) := by
  obtain ⟨hr, hg, hb⟩ := shiftedColor_nonneg d ht0 ht1
  have hi : (0 : ℚ) ≤ intensity d := le_trans (by norm_num)
    (intensity_bounds d).1
  have hpr : 0 ≤ (shiftedColor t d).r * intensity d := mul_nonneg hr hi
  have hpg : 0 ≤ (shiftedColor t d).g * intensity d := mul_nonneg hg hi
  have hpb : 0 ≤ (shiftedColor t d).b * intensity d := mul_nonneg hb hi
  refine ⟨⟨le_min (by norm_num) hpr, min_le_left _ _, ?_, ?_⟩,
    ⟨le_min (by norm_num) hpg, min_le_left _ _, ?_, ?_⟩,
    ⟨le_min (by norm_num) hpb, min_le_left _ _, ?_, ?_⟩⟩
  · exact (max_eq_right (le_min (by norm_num) hpr)).symm
  · exact toByte_le (min_le_left _ _)
  · exact (max_eq_right (le_min (by norm_num) hpg)).symm
  · exact toByte_le (min_le_left _ _)
  · exact (max_eq_right (le_min (by norm_num) hpb)).symm
  · exact toByte_le (min_le_left _ _)

/-- Witness for C4 at `t = 1/2`, `d = 1/2`. -/
theorem color_channels_clamped_witness :
    ((0 : ℚ) ≤ 1/2 ∧ (1/2 : ℚ) ≤ 1 ∧ (0.3 : ℚ) ≤ 1/2 ∧ (1/2 : ℚ) ≤ 2.5) ∧
    (0 ≤ finalR (1/2) (1/2) ∧ finalR (1/2) (1/2) ≤ 255 ∧
      finalR (1/2) (1/2) =
        max 0 (min 255 ((shiftedColor (1/2) (1/2)).r * intensity (1/2))) ∧
      (GetDiskColor (1/2) (1/2)).r ≤ 255) := by
  refine ⟨by norm_num, ?_⟩
  exact (color_channels_clamped (1/2) (1/2) (by norm_num) (by norm_num)
    (by norm_num) (by norm_num)).1

/-- Counterexample to C3: at `t = 0` the blue channel is `255` at both
`d = 1.5` and `d = 2` (saturation kills strict growth for `d > 1`), and
at `t = 1` the red channel strictly DECREASES from `d = 0.3` to
`d = 0.6` inside `[0.3, 1)`. -/
theorem doppler_mono_cex :
    ((1 : ℚ) < 1.5 ∧ (1.5 : ℚ) < 2 ∧ (2 : ℚ) ≤ 2.5 ∧
      (GetDiskColor 0 1.5).b = 255 ∧ (GetDiskColor 0 2).b = 255) ∧
    ((0.3 : ℚ) < 0.6 ∧ (0.6 : ℚ) < 1 ∧
      (GetDiskColor 1 0.3).r = 70 ∧ (GetDiskColor 1 0.6).r = 65) := by
  constructor
  · refine ⟨by norm_num, by norm_num, by norm_num, ?_, ?_⟩ <;>
      · norm_num [GetDiskColor, finalB, toByte, shiftedColor, baseColor,
          intensity, DISK_HOT, DISK_MID, DISK_COLD]
        decide
  · refine ⟨by norm_num, by norm_num, ?_, ?_⟩ <;>
      · norm_num [GetDiskColor, finalR, toByte, shiftedColor, baseColor,
          intensity, DISK_HOT, DISK_MID, DISK_COLD]
        decide

/-- C3 amended: for fixed `t` in `[0, 1]` the blue channel is monotone
NONdecreasing in `d` on `(1, 2.5]` (strictness fails once a saturation
clamp binds); for `d < 1` the red channel increases with `d` at `t = 0`
(where the base red is saturated and only the beaming intensity varies),
but not in general, as the counterexample shows. -/
theorem doppler_mono_amended :
    (∀ t d1 d2 : ℚ, 0 ≤ t → t ≤ 1 → 1 < d1 → d1 ≤ d2 → d2 ≤ 2.5 →
      (GetDiskColor t d1).b ≤ (GetDiskColor t d2).b) ∧
    (∀ d1 d2 : ℚ, 0.3 ≤ d1 → d1 ≤ d2 → d2 ≤ 1 →
      (GetDiskColor 0 d1).r ≤ (GetDiskColor 0 d2).r) := by
  constructor
  · intro t d1 d2 ht0 ht1 hd1 h12 hd2
    have hd2gt : 1 < d2 := lt_of_lt_of_le hd1 h12
    have hsh : (shiftedColor t d1).b ≤ (shiftedColor t d2).b := by
      simp only [shiftedColor, if_pos hd1, if_pos hd2gt]
      exact min_le_min le_rfl (by linarith)
    have hsh1 : 0 ≤ (shiftedColor t d1).b := (shiftedColor_nonneg d1 ht0 ht1).2.2
    have hi1 : (0 : ℚ) ≤ intensity d1 := le_trans (by norm_num)
      (intensity_bounds d1).1
    have hsh2 : 0 ≤ (shiftedColor t d2).b := hsh1.trans hsh
    have hmono : intensity d1 ≤ intensity d2 :=
      intensity_mono (by linarith) h12
    have : (shiftedColor t d1).b * intensity d1 ≤
        (shiftedColor t d2).b * intensity d2 :=
      mul_le_mul hsh hmono hi1 hsh2
    exact toByte_mono (min_le_min le_rfl this)
  · intro d1 d2 h1 h12 h2
    have e1 : (shiftedColor 0 d1).r = 255 := by
      have : ¬ (1 : ℚ) < d1 := by linarith
      simp only [shiftedColor, if_neg this]
      norm_num [baseColor, DISK_HOT, DISK_MID]
      linarith
    have e2 : (shiftedColor 0 d2).r = 255 := by
      have : ¬ (1 : ℚ) < d2 := by linarith
      simp only [shiftedColor, if_neg this]
      norm_num [baseColor, DISK_HOT, DISK_MID]
      linarith
    have hmono : intensity d1 ≤ intensity d2 :=
      intensity_mono (by linarith) h12
    have : (shiftedColor 0 d1).r * intensity d1 ≤
        (shiftedColor 0 d2).r * intensity d2 := by
      rw [e1, e2]
      exact mul_le_mul le_rfl hmono (le_trans (by norm_num)
        (intensity_bounds d1).1) (by norm_num)
    exact toByte_mono (min_le_min le_rfl this)

/-- Witness for C3 amended: blue nondecreasing from `d = 1.2` to
`d = 1.4` at `t = 0`, red nondecreasing from `d = 0.5` to `d = 0.9` at
`t = 0`. -/
theorem doppler_mono_amended_witness :
    ((0 : ℚ) ≤ 0 ∧ (0 : ℚ) ≤ 1 ∧ (1 : ℚ) < 1.2 ∧ (1.2 : ℚ) ≤ 1.4 ∧
      (1.4 : ℚ) ≤ 2.5 ∧ (GetDiskColor 0 1.2).b ≤ (GetDiskColor 0 1.4).b) ∧
    ((0.3 : ℚ) ≤ 0.5 ∧ (0.5 : ℚ) ≤ 0.9 ∧ (0.9 : ℚ) ≤ 1 ∧
      (GetDiskColor 0 0.5).r ≤ (GetDiskColor 0 0.9).r) := by
  constructor
  · exact ⟨le_rfl, by norm_num, by norm_num, by norm_num, by norm_num,
      doppler_mono_amended.1 0 1.2 1.4 le_rfl (by norm_num) (by norm_num)
        (by norm_num) (by norm_num)⟩
  · exact ⟨by norm_num, by norm_num, by norm_num,
      doppler_mono_amended.2 0.5 0.9 (by norm_num) (by norm_num)
        (by norm_num)⟩

/-! ### SceneGenerator and OrbitSimulator (main.cpp lines 35 to 46 and
150 to 153), over `ℝ` -/

/-- The raylib `PI` macro constant, at the exact value of its source
literal. -/
def PI : ℝ := 3.14159265358979323846

/-- The raylib `DEG2RAD` macro: `PI / 180`. -/
noncomputable def DEG2RAD : ℝ := PI / 180

/-- Schwarzschild radius constant `BH_RADIUS` (line 118). -/
def BH_RADIUS : ℝ := 1

/-- Inner disk radius `DISK_INNER` (line 120). -/
def DISK_INNER : ℝ := 2.5

/-- Outer disk radius `DISK_OUTER` (line 121). -/
def DISK_OUTER : ℝ := 9

/-- Disk particle (struct `Particle`, line 17). -/
structure Particle where
  angle : ℝ
  radius : ℝ
  speed : ℝ
  yOffset : ℝ

/-- One particle built by the `CreateDisk` loop body (lines 37 to 44),
parameterized by the raw `GetRandomValue` results: `uRaw` in `[0, 1000]`
scaled by `0.001` and squared for the radius, `aRaw` in `[0, 3600]`
scaled to radians for the angle, `yRaw` in `[-50, 50]` scaled by `0.001`
for the vertical offset; the speed is Keplerian, `2 / sqrt(radius)`. -/
noncomputable def mkParticle (uRaw aRaw yRaw : ℤ) (rIn rOut : ℝ) : Particle where
  angle := (aRaw : ℝ) * 0.1 * DEG2RAD
  radius := rIn + (uRaw : ℝ) * 0.001 * ((uRaw : ℝ) * 0.001) * (rOut - rIn)
  speed := 2 / Real.sqrt
    (rIn + (uRaw : ℝ) * 0.001 * ((uRaw : ℝ) * 0.001) * (rOut - rIn))
  yOffset := (yRaw : ℝ) * 0.001

/-- `CreateDisk(n, rIn, rOut)` (lines 35 to 46) as a function of the
list of raw random sample triples, one per particle. -/
noncomputable def CreateDisk (samples : List (ℤ × ℤ × ℤ)) (rIn rOut : ℝ) :
    List Particle :=
  samples.map fun s => mkParticle s.1 s.2.1 s.2.2 rIn rOut

/-- One tick of the disk update loop for one particle (lines 150 to
153): add `speed * dt` to the angle, then subtract `2 * PI` once if the
result exceeds `2 * PI`. -/
noncomputable def advance (p : Particle) (dt : ℝ) : Particle :=
  let a := p.angle + p.speed * dt
  { p with angle := if PI * 2 < a then a - PI * 2 else a }

/-- Iterated ticks with per-tick frame times. -/
noncomputable def advanceMany (p : Particle) (dts : List ℝ) : Particle :=
  dts.foldl advance p

lemma advanceMany_cons (p : Particle) (dt : ℝ) (dts : List ℝ) :
    advanceMany p (dt :: dts) = advanceMany (advance p dt) dts := rfl

/-- C9: the per-tick update mutates only the angle: radius, speed and
vertical offset are the creation-time values after one tick and after
any number of ticks. -/
theorem advance_frame_condition :
    ∀ (p : Particle) (dt : ℝ) (dts : List ℝ),
      ((advance p dt).radius = p.radius ∧ (advance p dt).speed = p.speed ∧
        (advance p dt).yOffset = p.yOffset) ∧
      ((advanceMany p dts).radius = p.radius ∧
        (advanceMany p dts).speed = p.speed ∧
        (advanceMany p dts).yOffset = p.yOffset) := by
  intro p dt dts
  refine ⟨⟨rfl, rfl, rfl⟩, ?_⟩
  induction dts generalizing p with
  | nil => exact ⟨rfl, rfl, rfl⟩
  | cons x xs ih =>
      rw [advanceMany_cons]
      exact ih (advance p x)

/-- Counterexample to C2: a single subtraction of `2 * PI` is not a
renormalization into `[0, 2 * PI)`. With speed `1`, angle `0` and
`dt = 13` the updated angle is `13 - 2 * PI`, which still exceeds
`2 * PI`; and with angle `PI` and `dt = PI` the updated angle is exactly
`2 * PI`, which the strict test does not wrap, so it lies outside the
half-open interval. -/
theorem angle_wrap_cex :
    ((0 : ℝ) ≤ 13 ∧ 0 ≤ (advance ⟨0, 4.125, 1, 0⟩ 13).angle ∧
      ¬ (advance ⟨0, 4.125, 1, 0⟩ 13).angle < PI * 2) ∧
    ((0 : ℝ) ≤ PI ∧ (advance ⟨PI, 4.125, 1, 0⟩ PI).angle = PI * 2 ∧
      ¬ (advance ⟨PI, 4.125, 1, 0⟩ PI).angle < PI * 2) := by
  have h13 : (advance ⟨0, 4.125, 1, 0⟩ 13).angle = 0 + 1 * 13 - PI * 2 := by
    simp only [advance]
    rw [if_pos (by norm_num [PI])]
  have hpi : (advance ⟨PI, 4.125, 1, 0⟩ PI).angle = PI + 1 * PI := by
    simp only [advance]
    rw [if_neg (by norm_num [PI])]
  refine ⟨⟨by norm_num, ?_, ?_⟩, ⟨by norm_num [PI], ?_, ?_⟩⟩
  · rw [h13]; norm_num [PI]
  · rw [h13]; norm_num [PI]
  · rw [hpi]; ring
  · rw [hpi]; norm_num [PI]

lemma advance_angle_mem {p : Particle} {dt : ℝ}
    (h0 : 0 ≤ p.angle) (h1 : p.angle ≤ PI * 2)
    (hd0 : 0 ≤ p.speed * dt) (hd1 : p.speed * dt ≤ PI * 2) :
    0 ≤ (advance p dt).angle ∧ (advance p dt).angle ≤ PI * 2 := by
  simp only [advance]
  split_ifs with h
  · constructor <;> linarith
  · push_neg at h
    constructor <;> linarith

/-- C2 amended: under the per-frame assumption the spec itself states
(`speed * dt` far below `2 * PI`; here: at most `2 * PI`), repeated
advancing keeps the angle in the CLOSED interval `[0, 2 * PI]`; the
endpoint `2 * PI` is attainable because the wrap test is strict, and a
`dt` with `speed * dt` above `2 * PI` can escape the interval entirely. -/
theorem angle_wrap_amended :
    ∀ (p : Particle) (dts : List ℝ), 0 ≤ p.angle → p.angle ≤ PI * 2 →
      (∀ dt ∈ dts, 0 ≤ p.speed * dt ∧ p.speed * dt ≤ PI * 2) →
      0 ≤ (advanceMany p dts).angle ∧ (advanceMany p dts).angle ≤ PI * 2 := by
  intro p dts
  induction dts generalizing p with
  | nil => exact fun h0 h1 _ => ⟨h0, h1⟩
  | cons x xs ih =>
      intro h0 h1 hall
      obtain ⟨hx0, hx1⟩ := hall x (List.mem_cons_self x xs)
      obtain ⟨ha0, ha1⟩ := advance_angle_mem h0 h1 hx0 hx1
      rw [advanceMany_cons]
      refine ih (advance p x) ha0 ha1 fun dt hdt => ?_
      exact hall dt (List.mem_cons_of_mem x hdt)

/-- Witness for C2 amended: speed `1`, angle `0`, two ticks of `1` and
`2` seconds. -/
theorem angle_wrap_amended_witness :
    (0 ≤ (⟨0, 4.125, 1, 0⟩ : Particle).angle ∧
      (⟨0, 4.125, 1, 0⟩ : Particle).angle ≤ PI * 2 ∧
      (∀ dt ∈ ([1, 2] : List ℝ),
        0 ≤ (⟨0, 4.125, 1, 0⟩ : Particle).speed * dt ∧
        (⟨0, 4.125, 1, 0⟩ : Particle).speed * dt ≤ PI * 2)) ∧
    (0 ≤ (advanceMany ⟨0, 4.125, 1, 0⟩ [1, 2]).angle ∧
      (advanceMany ⟨0, 4.125, 1, 0⟩ [1, 2]).angle ≤ PI * 2) := by
  have hmem : ∀ dt ∈ ([1, 2] : List ℝ),
      0 ≤ (⟨0, 4.125, 1, 0⟩ : Particle).speed * dt ∧
      (⟨0, 4.125, 1, 0⟩ : Particle).speed * dt ≤ PI * 2 := by
    intro dt hdt
    fin_cases hdt <;> constructor <;> norm_num [PI]
  exact ⟨⟨le_refl 0, by norm_num [PI], hmem⟩,
    angle_wrap_amended ⟨0, 4.125, 1, 0⟩ [1, 2] (le_refl 0)
      (by norm_num [PI]) hmem⟩

lemma mkParticle_radius_mem (uRaw aRaw yRaw : ℤ) (rIn rOut : ℝ)
    (hu0 : 0 ≤ uRaw) (hu1 : uRaw ≤ 1000) (hio : rIn ≤ rOut) :
    rIn ≤ (mkParticle uRaw aRaw yRaw rIn rOut).radius ∧
    (mkParticle uRaw aRaw yRaw rIn rOut).radius ≤ rOut := by
  have hc0 : (0 : ℝ) ≤ (uRaw : ℝ) := by exact_mod_cast hu0
  have hc1 : (uRaw : ℝ) ≤ 1000 := by exact_mod_cast hu1
  have hu01 : 0 ≤ (uRaw : ℝ) * 0.001 := by positivity
  have hu11 : (uRaw : ℝ) * 0.001 ≤ 1 := by linarith
  have hsq0 : 0 ≤ (uRaw : ℝ) * 0.001 * ((uRaw : ℝ) * 0.001) :=
    mul_nonneg hu01 hu01
  have hsq1 : (uRaw : ℝ) * 0.001 * ((uRaw : ℝ) * 0.001) ≤ 1 :=
    mul_le_one₀ hu11 hu01 hu11
  constructor
  · show rIn ≤ rIn + (uRaw : ℝ) * 0.001 * ((uRaw : ℝ) * 0.001) * (rOut - rIn)
    nlinarith
  · show rIn + (uRaw : ℝ) * 0.001 * ((uRaw : ℝ) * 0.001) * (rOut - rIn) ≤ rOut
    nlinarith

/-- C5: every particle of `CreateDisk(n, rIn, rOut)` with
`0 < rIn < rOut` has radius `rIn + u * u * (rOut - rIn)` for its raw
sample `u` in `[0, 1]`, hence radius in `[rIn, rOut]`, and speed
`2 / sqrt(radius)`; concretely, for `rIn = 2.5`, `rOut = 9`, `u = 0.5`
the radius is `4.125`, the speed is `2 / sqrt(4.125)`, within `0.001` of
`0.9847 rad/s`, and advancing one tick of `dt = 1` increases the angle
by exactly the speed (no wraparound from angle `0`). -/
theorem createDisk_fields :
    (∀ (samples : List (ℤ × ℤ × ℤ)) (rIn rOut : ℝ), 0 < rIn → rIn < rOut →
      (∀ s ∈ samples, 0 ≤ s.1 ∧ s.1 ≤ 1000) →
      ∀ p ∈ CreateDisk samples rIn rOut,
        (∃ u : ℝ, 0 ≤ u ∧ u ≤ 1 ∧ p.radius = rIn + u * u * (rOut - rIn)) ∧
        rIn ≤ p.radius ∧ p.radius ≤ rOut ∧
        p.speed = 2 / Real.sqrt p.radius) ∧
    ((mkParticle 500 0 0 2.5 9).radius = 4.125 ∧
      (mkParticle 500 0 0 2.5 9).speed = 2 / Real.sqrt 4.125 ∧
      |(mkParticle 500 0 0 2.5 9).speed - 0.9847| < 0.001 ∧
      (advance (mkParticle 500 0 0 2.5 9) 1).angle =
        (mkParticle 500 0 0 2.5 9).angle + (mkParticle 500 0 0 2.5 9).speed) := by
  have hrad : (mkParticle 500 0 0 2.5 9).radius = 4.125 := by
    show (2.5 : ℝ) + ((500 : ℤ) : ℝ) * 0.001 * (((500 : ℤ) : ℝ) * 0.001) *
      (9 - 2.5) = 4.125
    norm_num
  have hsqrt_lo : (2.03 : ℝ) < Real.sqrt 4.125 :=
    (Real.lt_sqrt (by norm_num)).mpr (by norm_num)
  have hsqrt_hi : Real.sqrt 4.125 < 2.032 :=
    (Real.sqrt_lt' (by norm_num)).mpr (by norm_num)
  have hsqrt_pos : (0 : ℝ) < Real.sqrt 4.125 := by linarith
  have hspeed : (mkParticle 500 0 0 2.5 9).speed = 2 / Real.sqrt 4.125 := by
    show (2 : ℝ) / Real.sqrt ((2.5 : ℝ) + ((500 : ℤ) : ℝ) * 0.001 *
      (((500 : ℤ) : ℝ) * 0.001) * (9 - 2.5)) = 2 / Real.sqrt 4.125
    norm_num
  have hlo : (0.9837 : ℝ) < 2 / Real.sqrt 4.125 := by
    rw [lt_div_iff hsqrt_pos]
    nlinarith
  have hhi : 2 / Real.sqrt 4.125 < 0.9857 := by
    rw [div_lt_iff hsqrt_pos]
    nlinarith
  constructor
  · intro samples rIn rOut hr0 hrio hs p hp
    obtain ⟨s, hs_mem, rfl⟩ := List.mem_map.mp hp
    obtain ⟨hs0, hs1⟩ := hs s hs_mem
    obtain ⟨hm0, hm1⟩ := mkParticle_radius_mem s.1 s.2.1 s.2.2 rIn rOut hs0
      hs1 (le_of_lt hrio)
    refine ⟨⟨(s.1 : ℝ) * 0.001, ?_, ?_, rfl⟩, hm0, hm1, rfl⟩
    · have : (0 : ℝ) ≤ (s.1 : ℝ) := by exact_mod_cast hs0
      positivity
    · have : (s.1 : ℝ) ≤ 1000 := by exact_mod_cast hs1
      linarith
  · refine ⟨hrad, hspeed, ?_, ?_⟩
    · rw [hspeed, abs_lt]
      constructor <;> linarith
    · have hangle : (mkParticle 500 0 0 2.5 9).angle = 0 := by
        show ((0 : ℤ) : ℝ) * 0.1 * DEG2RAD = 0
        norm_num
      have hnotwrap : ¬ PI * 2 < (mkParticle 500 0 0 2.5 9).angle +
          (mkParticle 500 0 0 2.5 9).speed * 1 := by
        rw [hangle, hspeed]
        push_neg
        have hPI : (6 : ℝ) ≤ PI * 2 := by norm_num [PI]
        linarith
      simp only [advance]
      rw [if_neg hnotwrap]
      ring

/-- Witness for C5: the singleton sample list giving `u = 0.5` with the
disk bounds of the program. -/
theorem createDisk_fields_witness :
    ((0 : ℝ) < 2.5 ∧ (2.5 : ℝ) < 9 ∧
      (∀ s ∈ ([((500 : ℤ), (0 : ℤ), (0 : ℤ))] : List (ℤ × ℤ × ℤ)),
        0 ≤ s.1 ∧ s.1 ≤ 1000) ∧
      mkParticle 500 0 0 2.5 9 ∈ CreateDisk [(500, 0, 0)] 2.5 9) ∧
    ((∃ u : ℝ, 0 ≤ u ∧ u ≤ 1 ∧ (mkParticle 500 0 0 2.5 9).radius =
        2.5 + u * u * (9 - 2.5)) ∧
      2.5 ≤ (mkParticle 500 0 0 2.5 9).radius ∧
      (mkParticle 500 0 0 2.5 9).radius ≤ 9 ∧
      (mkParticle 500 0 0 2.5 9).speed =
        2 / Real.sqrt (mkParticle 500 0 0 2.5 9).radius) := by
  have hmem : mkParticle 500 0 0 2.5 9 ∈ CreateDisk [(500, 0, 0)] 2.5 9 := by
    simp [CreateDisk]
  have hall : ∀ s ∈ ([((500 : ℤ), (0 : ℤ), (0 : ℤ))] : List (ℤ × ℤ × ℤ)),
      0 ≤ s.1 ∧ s.1 ≤ 1000 := by
    intro s hs
    fin_cases hs
    constructor <;> norm_num
  exact ⟨⟨by norm_num, by norm_num, hall, hmem⟩,
    createDisk_fields.1 [(500, 0, 0)] 2.5 9 (by norm_num) (by norm_num)
      hall (mkParticle 500 0 0 2.5 9) hmem⟩

/-! ### Doppler factors at the renderer call sites (main.cpp lines 179
to 195, 227 to 231, 240 to 250) -/

/-- The argument of the Doppler square root,
`(1 + beta * cos a) / (1 - beta * cos a + 0.01)` (lines 191, 228, 247). -/
noncomputable def dopplerArg (beta a : ℝ) : ℝ :=
  (1 + beta * Real.cos a) / (1 - beta * Real.cos a + 0.01)

/-- Orbital beta for disk material at radius `r`:
`0.4 / sqrt(r / DISK_INNER)` (lines 188 and 245). -/
noncomputable def diskBeta (r : ℝ) : ℝ := 0.4 / Real.sqrt (r / DISK_INNER)

/-- Radius of disk ring band `ring` (line 180). -/
noncomputable def ringRadius (ring : ℕ) : ℝ :=
  DISK_INNER + (ring : ℝ) / 30 * (DISK_OUTER - DISK_INNER)

/-- Temperature argument for a disk ring band (line 181). -/
noncomputable def ringTemp (ring : ℕ) : ℝ := (ring : ℝ) / 30

/-- Clamped Doppler factor for a disk ring segment at angle `a`
(lines 191 to 192). -/
noncomputable def ringDoppler (ring : ℕ) (a : ℝ) : ℝ :=
  max 0.4 (min 1.8 (Real.sqrt (dopplerArg (diskBeta (ringRadius ring)) a)))

/-- Temperature argument `layerT * 0.4` for an Einstein-ring layer
(lines 207 and 231). -/
noncomputable def einsteinTemp (layer : ℕ) : ℝ := (layer : ℝ) / 20 * 0.4

/-- Clamped Doppler factor for an Einstein-ring segment, with fixed
`beta = 0.25` (lines 227 to 229). -/
noncomputable def einsteinDoppler (a : ℝ) : ℝ :=
  max 0.6 (min 1.5 (Real.sqrt (dopplerArg 0.25 a)))

/-- Temperature argument for a disk particle (line 243). -/
noncomputable def particleTemp (p : Particle) : ℝ :=
  (p.radius - DISK_INNER) / (DISK_OUTER - DISK_INNER)

/-- Clamped Doppler factor for a disk particle (lines 245 to 248). -/
noncomputable def particleDoppler (p : Particle) : ℝ :=
  max 0.4 (min 1.8 (Real.sqrt (dopplerArg (diskBeta p.radius) p.angle)))

lemma diskBeta_bounds {r : ℝ} (h : DISK_INNER ≤ r) :
    0 < diskBeta r ∧ diskBeta r ≤ 0.4 := by
  have hpos : (0 : ℝ) < DISK_INNER := by norm_num [DISK_INNER]
  have h1 : (1 : ℝ) ≤ r / DISK_INNER := by
    rw [le_div_iff₀ hpos]
    linarith
  have hs : 1 ≤ Real.sqrt (r / DISK_INNER) := by
    rw [Real.le_sqrt' one_pos]
    nlinarith
  refine ⟨div_pos (by norm_num) (lt_of_lt_of_le one_pos hs), ?_⟩
  exact div_le_self (by norm_num) hs

lemma doppler_safe {beta : ℝ} (h0 : 0 ≤ beta) (h4 : beta ≤ 0.4) (a : ℝ) :
    0 < 1 - beta * Real.cos a + 0.01 ∧ 0 ≤ dopplerArg beta a := by
  have hc1 : Real.cos a ≤ 1 := Real.cos_le_one a
  have hc2 : -1 ≤ Real.cos a := Real.neg_one_le_cos a
  have hbc1 : beta * Real.cos a ≤ 0.4 := by nlinarith
  have hbc2 : -0.4 ≤ beta * Real.cos a := by nlinarith
  refine ⟨by linarith, ?_⟩
  unfold dopplerArg
  exact div_nonneg (by linarith) (by linarith)

lemma ringRadius_ge (ring : ℕ) : DISK_INNER ≤ ringRadius ring := by
  have h : (0 : ℝ) ≤ (ring : ℝ) := Nat.cast_nonneg ring
  unfold ringRadius DISK_INNER DISK_OUTER
  nlinarith

/-- C8: at all three Doppler call sites (disk rings with
`beta = 0.4 / sqrt(r / rIn)` for `r` at least `rIn`, disk particles with
the same formula, Einstein ring with `beta = 0.25`) the denominator
`1 - beta * cos a + 0.01` is strictly positive and the square-root
argument is nonnegative. -/
theorem doppler_denominator_safe :
    (∀ (ring : ℕ) (a : ℝ),
      0 < 1 - diskBeta (ringRadius ring) * Real.cos a + 0.01 ∧
      0 ≤ dopplerArg (diskBeta (ringRadius ring)) a) ∧
    (∀ (r a : ℝ), DISK_INNER ≤ r →
      0 < 1 - diskBeta r * Real.cos a + 0.01 ∧
      0 ≤ dopplerArg (diskBeta r) a) ∧
    (∀ a : ℝ, 0 < 1 - 0.25 * Real.cos a + 0.01 ∧ 0 ≤ dopplerArg 0.25 a) := by
  have hgen : ∀ (r a : ℝ), DISK_INNER ≤ r →
      0 < 1 - diskBeta r * Real.cos a + 0.01 ∧
      0 ≤ dopplerArg (diskBeta r) a := by
    intro r a hr
    obtain ⟨hb0, hb4⟩ := diskBeta_bounds hr
    exact doppler_safe (le_of_lt hb0) hb4 a
  exact ⟨fun ring a => hgen (ringRadius ring) a (ringRadius_ge ring), hgen,
    fun a => doppler_safe (by norm_num) (by norm_num) a⟩

/-- Witness for C8 at the inner disk edge and angle `0`. -/
theorem doppler_denominator_safe_witness :
    DISK_INNER ≤ (2.5 : ℝ) ∧
    (0 < 1 - diskBeta 2.5 * Real.cos 0 + 0.01 ∧
      0 ≤ dopplerArg (diskBeta 2.5) 0) := by
  have h : DISK_INNER ≤ (2.5 : ℝ) := by norm_num [DISK_INNER]
  exact ⟨h, doppler_denominator_safe.2.1 2.5 0 h⟩

lemma clamp_mem {lo hi x : ℝ} (h : lo ≤ hi) :
    lo ≤ max lo (min hi x) ∧ max lo (min hi x) ≤ hi :=
  ⟨le_max_left _ _, max_le h (min_le_left _ _)⟩

/-- C10: every renderer call of `GetDiskColor` satisfies the ColorModel
contract: the temperature arguments `ring / 30`, `layerT * 0.4` and
`(radius - rIn) / (rOut - rIn)` lie in `[0, 1]`, and the Doppler
arguments are pre-clamped into `[0.4, 1.8]` (disk rings and particles)
or `[0.6, 1.5]` (Einstein ring), both inside the contract domain
`[0.3, 2.5]`. -/
theorem getDiskColor_call_contract :
    (∀ ring : ℕ, ring < 30 → 0 ≤ ringTemp ring ∧ ringTemp ring ≤ 1) ∧
    (∀ (ring : ℕ) (a : ℝ),
      (0.4 ≤ ringDoppler ring a ∧ ringDoppler ring a ≤ 1.8) ∧
      (0.3 ≤ ringDoppler ring a ∧ ringDoppler ring a ≤ 2.5)) ∧
    (∀ layer : ℕ, layer < 20 →
      0 ≤ einsteinTemp layer ∧ einsteinTemp layer ≤ 1) ∧
    (∀ a : ℝ, (0.6 ≤ einsteinDoppler a ∧ einsteinDoppler a ≤ 1.5) ∧
      (0.3 ≤ einsteinDoppler a ∧ einsteinDoppler a ≤ 2.5)) ∧
    (∀ samples : List (ℤ × ℤ × ℤ),
      (∀ s ∈ samples, 0 ≤ s.1 ∧ s.1 ≤ 1000) →
      ∀ p ∈ CreateDisk samples DISK_INNER DISK_OUTER,
        (0 ≤ particleTemp p ∧ particleTemp p ≤ 1) ∧
        (0.4 ≤ particleDoppler p ∧ particleDoppler p ≤ 1.8)) := by
  refine ⟨?_, ?_, ?_, ?_, ?_⟩
  · intro ring h
    have hc : (ring : ℝ) ≤ 29 := by exact_mod_cast Nat.lt_succ_iff.mp h
    have hc0 : (0 : ℝ) ≤ (ring : ℝ) := Nat.cast_nonneg ring
    unfold ringTemp
    constructor
    · positivity
    · rw [div_le_one (by norm_num)]
      linarith
  · intro ring a
    refine ⟨clamp_mem (by norm_num), ?_, ?_⟩
    · exact le_trans (by norm_num) (clamp_mem (x := Real.sqrt
        (dopplerArg (diskBeta (ringRadius ring)) a)) (by norm_num)).1
    · exact le_trans (clamp_mem (x := Real.sqrt
        (dopplerArg (diskBeta (ringRadius ring)) a)) (by norm_num)).2
        (by norm_num)
  · intro layer h
    have hc : (layer : ℝ) ≤ 19 := by exact_mod_cast Nat.lt_succ_iff.mp h
    have hc0 : (0 : ℝ) ≤ (layer : ℝ) := Nat.cast_nonneg layer
    unfold einsteinTemp
    constructor
    · positivity
    · nlinarith
  · intro a
    refine ⟨clamp_mem (by norm_num), ?_, ?_⟩
    · exact le_trans (by norm_num) (clamp_mem (x := Real.sqrt
        (dopplerArg 0.25 a)) (by norm_num)).1
    · exact le_trans (clamp_mem (x := Real.sqrt
        (dopplerArg 0.25 a)) (by norm_num)).2 (by norm_num)
  · intro samples hs p hp
    obtain ⟨s, hs_mem, rfl⟩ := List.mem_map.mp hp
    obtain ⟨hs0, hs1⟩ := hs s hs_mem
    obtain ⟨hm0, hm1⟩ := mkParticle_radius_mem s.1 s.2.1 s.2.2 DISK_INNER
      DISK_OUTER hs0 hs1 (by norm_num [DISK_INNER, DISK_OUTER])
    refine ⟨⟨?_, ?_⟩, clamp_mem (by norm_num)⟩
    · unfold particleTemp
      exact div_nonneg (by linarith) (by norm_num [DISK_INNER, DISK_OUTER])
    · unfold particleTemp
      rw [div_le_one (by norm_num [DISK_INNER, DISK_OUTER])]
      linarith

/-- Witness for C10: ring `0`, Einstein layer `0`, and the particle from
sample `u = 0.5`. -/
theorem getDiskColor_call_contract_witness :
    ((0 : ℕ) < 30 ∧ 0 ≤ ringTemp 0 ∧ ringTemp 0 ≤ 1) ∧
    ((0 : ℕ) < 20 ∧ 0 ≤ einsteinTemp 0 ∧ einsteinTemp 0 ≤ 1) ∧
    ((∀ s ∈ ([((500 : ℤ), (0 : ℤ), (0 : ℤ))] : List (ℤ × ℤ × ℤ)),
        0 ≤ s.1 ∧ s.1 ≤ 1000) ∧
      mkParticle 500 0 0 DISK_INNER DISK_OUTER ∈
        CreateDisk [(500, 0, 0)] DISK_INNER DISK_OUTER ∧
      ((0 ≤ particleTemp (mkParticle 500 0 0 DISK_INNER DISK_OUTER) ∧
        particleTemp (mkParticle 500 0 0 DISK_INNER DISK_OUTER) ≤ 1) ∧
        (0.4 ≤ particleDoppler (mkParticle 500 0 0 DISK_INNER DISK_OUTER) ∧
          particleDoppler (mkParticle 500 0 0 DISK_INNER DISK_OUTER) ≤ 1.8))) := by
  have hall : ∀ s ∈ ([((500 : ℤ), (0 : ℤ), (0 : ℤ))] : List (ℤ × ℤ × ℤ)),
      0 ≤ s.1 ∧ s.1 ≤ 1000 := by
    intro s hs
    fin_cases hs
    constructor <;> norm_num
  have hmem : mkParticle 500 0 0 DISK_INNER DISK_OUTER ∈
      CreateDisk [(500, 0, 0)] DISK_INNER DISK_OUTER := by
    simp [CreateDisk]
  refine ⟨⟨by norm_num, getDiskColor_call_contract.1 0 (by norm_num)⟩,
    ⟨by norm_num, getDiskColor_call_contract.2.2.1 0 (by norm_num)⟩,
    hall, hmem, getDiskColor_call_contract.2.2.2.2 [(500, 0, 0)] hall
      (mkParticle 500 0 0 DISK_INNER DISK_OUTER) hmem⟩

end Gargantua
